import Mathlib

/-!
Verification of the captioning pipeline in `caption_video.py`.

The pure core of the script (timestamp formatting, SRT/transcript
serialization, the grammar-correction loop with its degradation policy, path
escaping for the burn-in filter, and the sequencing of the pipeline in `main`)
is embedded shallowly below.  External effects (the LanguageTool import and
constructor, the per-segment `tool.correct` call, the ffmpeg invocations, file
writes) are modelled as explicit outcome values (`Except`), since the Python
code observes them only through success or a raised exception.  Python floats
are modelled as exact rationals; Python `int()` applied to the non-negative /
integral intermediate values of `format_timestamp` is floor.
-/

set_option linter.unusedVariables false
set_option maxRecDepth 10000

namespace VideoCaptioner

/-- Whisper segment: the pipeline reads the dict keys `start`, `end` and
`text`.  `extra` models any further key/value pairs the transcription engine
attaches to a segment dict beyond those three; a dict literal written with
exactly the three keys has `extra = []`. -/
structure Segment where
  start : ℚ
  «end» : ℚ
  text : String
  extra : List (String × ℚ) := []
deriving DecidableEq, Repr

/-- Model of a constructed `language_tool_python.LanguageTool` instance:
`correct` returns the corrected text, or `Except.error` when the call raises. -/
structure LTool where
  correct : String → Except String String

/-- Model of the `language_tool_python` module boundary: `absent` is an
`ImportError` on `import language_tool_python`; `present construct` gives the
`LanguageTool(lt_lang)` constructor, which returns a tool or raises. -/
inductive LTModule where
  | absent
  | present (construct : String → Except String LTool)

/-- Embeds `LANG_MAP` (src line 32): Whisper language code to LanguageTool
language code. -/
def LANG_MAP : List (String × String) :=
  [("it", "it"), ("en", "en-US"), ("es", "es"), ("fr", "fr"), ("de", "de-DE"),
   ("pt", "pt-PT"), ("nl", "nl"), ("pl", "pl-PL"), ("ru", "ru-RU")]

/-- Embeds `LANG_MAP.get(lang_code, "en-US")` (src line 138). -/
def langMapGet (lang_code : String) : String :=
  match LANG_MAP.find? (fun p => p.1 == lang_code) with
  | some p => p.2
  | none => "en-US"

/-- Embeds Python `str.strip()`: remove the whitespace characters at both
ends of the string.  Done by structural recursion on the character list (the
built-in `String.trim` is extensionally the same but is defined by
well-founded recursion, which blocks evaluation inside proofs). -/
def pystrip (s : String) : String :=
  String.mk (((s.data.dropWhile Char.isWhitespace).reverse.dropWhile
    Char.isWhitespace).reverse)

/-- Embeds the correction loop of `correct_grammar` (src lines 147-155): for
each segment in order, strip the text, call `tool.correct`, and append a dict
with exactly the keys `start`, `end`, `text`.  An exception raised by
`tool.correct` is not caught there, so it propagates (`Except.error`) and no
partial list is returned.  The `fixes` counter only feeds a log line and is
omitted. -/
def correct_loop (tool : LTool) : List Segment → Except String (List Segment)
  | [] => Except.ok []
  | seg :: rest =>
    match tool.correct (pystrip seg.text) with
    | Except.error e => Except.error e
    | Except.ok fixed =>
      match correct_loop tool rest with
      | Except.error e => Except.error e
      | Except.ok tail =>
        Except.ok ({ start := seg.start, «end» := seg.«end», text := fixed } :: tail)

/-- Embeds `correct_grammar` (src lines 131-160).  An `ImportError` on the
module import returns the input unchanged; a constructor exception is caught
and returns the input unchanged; the loop itself runs uncaught.  `tool.close()`
and the prints are effects on the outside world and are omitted. -/
def correct_grammar (ltm : LTModule) (segments : List Segment) (lang_code : String) :
    Except String (List Segment) :=
  match ltm with
  | LTModule.absent => Except.ok segments
  | LTModule.present construct =>
    let lt_lang := langMapGet lang_code
    match construct lt_lang with
    | Except.error _ => Except.ok segments
    | Except.ok tool => correct_loop tool segments

/-- Python `%` on rationals with the conventions of `float.__mod__`: the
result has the sign of the modulus; for `b > 0` this is `a - b * ⌊a / b⌋`. -/
def pymod (a b : ℚ) : ℚ := a - b * ⌊a / b⌋

/-- Zero-padding on the left up to width `w`, as Python `format` does for the
digits of a number. -/
def zfill (w : Nat) (s : String) : String :=
  if w ≤ s.length then s else String.mk (List.replicate (w - s.length) '0') ++ s

/-- Embeds the Python format spec `{n:0wd}`: minimum width `w`, zero-padded,
with a leading minus sign (inside the width) for negative numbers. -/
def fmtd (w : Nat) (n : ℤ) : String :=
  if n < 0 then "-" ++ zfill (w - 1) (Nat.repr n.natAbs) else zfill w (Nat.repr n.natAbs)

/-- Embeds `format_timestamp` (src lines 163-169).  `seconds // 3600` is float
floor division, and `int` of its integral value is exact, so `h = ⌊seconds /
3600⌋`; each `seconds % k` is non-negative (sign of the modulus), so the outer
`int(...)` truncations equal floors. -/
def format_timestamp (seconds : ℚ) : String :=
  let h : ℤ := ⌊seconds / 3600⌋
  let m : ℤ := ⌊pymod seconds 3600 / 60⌋
  let s : ℤ := ⌊pymod seconds 60⌋
  let ms : ℤ := ⌊pymod seconds 1 * 1000⌋
  fmtd 2 h ++ ":" ++ fmtd 2 m ++ ":" ++ fmtd 2 s ++ "," ++ fmtd 3 ms

/-- One `f.write` of the loop body of `save_srt` (src line 179):
index line, timing line, stripped text line, blank separator line. -/
def srt_block (i : Nat) (seg : Segment) : String :=
  Nat.repr i ++ "\n" ++ format_timestamp seg.start ++ " --> " ++
    format_timestamp seg.«end» ++ "\n" ++ pystrip seg.text ++ "\n\n"

/-- Embeds the loop `for i, seg in enumerate(segments, 1)` of `save_srt`
(src lines 176-179), returning the list of written blocks in order. -/
def save_srt_from (i : Nat) : List Segment → List String
  | [] => []
  | seg :: rest => srt_block i seg :: save_srt_from (i + 1) rest

/-- Embeds `save_srt` (src lines 172-180) as the sequence of strings written
to the subtitle file; the file content is their concatenation. -/
def save_srt (segments : List Segment) : List String :=
  save_srt_from 1 segments

/-- Embeds `save_transcript` (src lines 183-189): the single string written to
the transcript file. -/
def save_transcript (segments : List Segment) : String :=
  String.intercalate " " (segments.map (fun seg => pystrip seg.text))

/-- The backslash character. -/
def backslash : Char := '\\'

/-- The single-quote character. -/
def squote : Char := '\x27'

/-- Python `str.replace` with a single-character pattern, on the character
list of the string: each occurrence of `pat` becomes `rep`. -/
def py_replace1 (s : List Char) (pat : Char) (rep : List Char) : List Char :=
  s.flatMap (fun c => if c = pat then rep else [c])

/-- Embeds `str(srt_path).replace(":", "\\:").replace("'", "\\'")`
(src line 197). -/
def escape_path (p : List Char) : List Char :=
  py_replace1 (py_replace1 p ':' [backslash, ':']) squote [backslash, squote]

/-- Embeds the filter argument `f"subtitles='{srt_escaped}'"` (src line 200). -/
def burn_filter_arg (srt_path : List Char) : List Char :=
  "subtitles=".toList ++ [squote] ++ escape_path srt_path ++ [squote]

/-- Embeds the ffmpeg argument vector of `burn_subtitles` (src lines 198-202);
paths are character lists. -/
def burn_subtitles_cmd (video_path srt_path output_path : List Char) :
    List (List Char) :=
  ["ffmpeg".toList, "-y".toList, "-i".toList, video_path,
   "-vf".toList, burn_filter_arg srt_path,
   "-c:a".toList, "copy".toList, output_path]

/-- Characters the ffmpeg filter syntax can misinterpret in a path: colon and
single quote. -/
def isSpecial (c : Char) : Bool := c == ':' || c == squote

/-- Scans adjacent pairs: every special character must be immediately preceded
by a backslash (`prev` is the character before the head of the list). -/
def pairsOK : Char → List Char → Bool
  | _, [] => true
  | prev, c :: rest => (!(isSpecial c) || prev == backslash) && pairsOK c rest

/-- Holds when every colon and single quote in the list is immediately
preceded by a backslash. -/
def properlyEscaped : List Char → Bool
  | [] => true
  | c :: rest => !(isSpecial c) && pairsOK c rest

/-- Space-joining of a list of strings by recursion; reference form for the
transcript serialization. -/
def spaceJoin : List String → String
  | [] => ""
  | [s] => s
  | s :: rest => s ++ " " ++ spaceJoin rest

/-- Outcomes of the external effects of one run of `main` (src lines 286-303),
plus the two flags that select the correction stage.  Each `Except` is the
observed outcome of the corresponding blocking call: `ok` for normal return,
`error` for a raised exception. -/
structure PipelineEnv where
  extract : Except String Unit
  transcribe : Except String (String × List Segment)
  grammar : LTModule
  has_grammar : Bool
  no_grammar : Bool
  srt_write : Except String Unit
  txt_write : Except String Unit
  mux : Except String Unit

/-- Observable file state after a run: whether the intermediate audio file
exists, the blocks written to the srt file, the transcript content, and
whether the captioned video was produced. -/
structure FS where
  audio : Bool
  srt : Option (List String)
  txt : Option String
  video : Bool
deriving DecidableEq, Repr

/-- Embeds the pipeline section of `main` (src lines 286-303): extract audio,
transcribe, optionally correct grammar (`if has_grammar and not
args.no_grammar`), save srt and transcript, mux, then delete the intermediate
audio file.  Any raised exception propagates out of `main` uncaught, ending
the run with the file state reached so far; the returned `Option String` is
`none` on success and the exception message otherwise. -/
def run_pipeline (env : PipelineEnv) : FS × Option String :=
  match env.extract with
  | Except.error e => (⟨false, none, none, false⟩, some e)
  | Except.ok _ =>
    let fs1 : FS := ⟨true, none, none, false⟩
    match env.transcribe with
    | Except.error e => (fs1, some e)
    | Except.ok (lang, segs0) =>
      match (if env.has_grammar && !env.no_grammar
             then correct_grammar env.grammar segs0 lang
             else Except.ok segs0) with
      | Except.error e => (fs1, some e)
      | Except.ok segs =>
        match env.srt_write with
        | Except.error e => (fs1, some e)
        | Except.ok _ =>
          let fs2 := { fs1 with srt := some (save_srt segs) }
          match env.txt_write with
          | Except.error e => (fs2, some e)
          | Except.ok _ =>
            let fs3 := { fs2 with txt := some (save_transcript segs) }
            match env.mux with
            | Except.error e => (fs3, some e)
            | Except.ok _ => ({ fs3 with video := true, audio := false }, none)

/-!
Helper lemmas on floors and digit strings.
-/

theorem rat_floor_intDiv (a : ℚ) (n : ℤ) (hn : 0 < n) : ⌊a / (n : ℚ)⌋ = ⌊a⌋ / n := by
  have hn' : (0 : ℚ) < (n : ℚ) := by exact_mod_cast hn
  refine Int.floor_eq_iff.mpr ⟨?_, ?_⟩
  · rw [le_div_iff₀ hn']
    have h3 : n * (⌊a⌋ / n) + ⌊a⌋ % n = ⌊a⌋ := Int.ediv_add_emod _ _
    have h4 : 0 ≤ ⌊a⌋ % n := Int.emod_nonneg _ (ne_of_gt hn)
    have h5 : (⌊a⌋ / n) * n ≤ ⌊a⌋ := by linarith [h3, h4]
    calc ((⌊a⌋ / n : ℤ) : ℚ) * n = (((⌊a⌋ / n) * n : ℤ) : ℚ) := by push_cast; ring
      _ ≤ ((⌊a⌋ : ℤ) : ℚ) := by exact_mod_cast h5
      _ ≤ a := Int.floor_le a
  · rw [div_lt_iff₀ hn']
    have h3 : n * (⌊a⌋ / n) + ⌊a⌋ % n = ⌊a⌋ := Int.ediv_add_emod _ _
    have h4 : ⌊a⌋ % n < n := Int.emod_lt_of_pos _ hn
    have h5 : ⌊a⌋ + 1 ≤ (⌊a⌋ / n + 1) * n := by nlinarith [h3, h4]
    have h6 : a < (((⌊a⌋ / n + 1) * n : ℤ) : ℚ) := by
      calc a < (⌊a⌋ : ℚ) + 1 := Int.lt_floor_add_one a
        _ ≤ (((⌊a⌋ / n + 1) * n : ℤ) : ℚ) := by exact_mod_cast h5
    calc a < (((⌊a⌋ / n + 1) * n : ℤ) : ℚ) := h6
      _ = (((⌊a⌋ / n : ℤ) : ℚ) + 1) * n := by push_cast; ring

theorem pymod_minutes (q : ℚ) : ⌊pymod q 3600 / 60⌋ = ⌊q / 60⌋ % 60 := by
  have e1 : pymod q 3600 / 60 = q / 60 - ((60 * ⌊q / 3600⌋ : ℤ) : ℚ) := by
    unfold pymod; push_cast; ring
  rw [e1, Int.floor_sub_int]
  have e2 : ⌊q / 3600⌋ = ⌊q / 60⌋ / 60 := by
    have e3 : q / 3600 = (q / 60) / ((60 : ℤ) : ℚ) := by push_cast; ring
    rw [e3, rat_floor_intDiv (q / 60) 60 (by norm_num)]
  rw [e2, Int.emod_def]

theorem pymod_seconds (q : ℚ) : ⌊pymod q 60⌋ = ⌊q⌋ % 60 := by
  have e1 : pymod q 60 = q - ((60 * ⌊q / 60⌋ : ℤ) : ℚ) := by
    unfold pymod; push_cast; ring
  rw [e1, Int.floor_sub_int]
  have e2 : ⌊q / 60⌋ = ⌊q⌋ / 60 := by
    have e3 : q / 60 = q / ((60 : ℤ) : ℚ) := by push_cast; ring
    rw [e3, rat_floor_intDiv q 60 (by norm_num)]
  rw [e2, Int.emod_def]

theorem pymod_millis (q : ℚ) : ⌊pymod q 1 * 1000⌋ = ⌊q * 1000⌋ % 1000 := by
  have e1 : pymod q 1 * 1000 = q * 1000 - ((1000 * ⌊q / 1⌋ : ℤ) : ℚ) := by
    unfold pymod; push_cast; ring
  rw [e1, Int.floor_sub_int]
  have e2 : ⌊q / 1⌋ = ⌊q * 1000⌋ / 1000 := by
    have e3 : q / 1 = (q * 1000) / ((1000 : ℤ) : ℚ) := by push_cast; ring
    rw [e3, rat_floor_intDiv (q * 1000) 1000 (by norm_num)]
  rw [e2, Int.emod_def]

theorem fmt_decomp (q : ℚ) :
    format_timestamp q =
      fmtd 2 ⌊q / 3600⌋ ++ ":" ++ fmtd 2 (⌊q / 60⌋ % 60) ++ ":" ++
      fmtd 2 (⌊q⌋ % 60) ++ "," ++ fmtd 3 (⌊q * 1000⌋ % 1000) := by
  unfold format_timestamp
  rw [pymod_minutes, pymod_seconds, pymod_millis]

theorem repr_len_le_two : ∀ m : Nat, m < 100 → (Nat.repr m).length ≤ 2 := by decide

theorem repr_len_le_three : ∀ m : Nat, m < 1000 → (Nat.repr m).length ≤ 3 := by decide

theorem zfill_length (w : Nat) (s : String) (h : s.length ≤ w) : (zfill w s).length = w := by
  unfold zfill
  split
  · omega
  · rw [String.length_append]
    have hm : (String.mk (List.replicate (w - s.length) '0')).length
        = (List.replicate (w - s.length) '0').length := rfl
    rw [hm, List.length_replicate]
    omega

theorem fmtd_length_two (n : ℤ) (h0 : 0 ≤ n) (h1 : n ≤ 59) : (fmtd 2 n).length = 2 := by
  unfold fmtd
  rw [if_neg (by omega)]
  exact zfill_length 2 _ (repr_len_le_two n.natAbs (by omega))

theorem fmtd_length_three (n : ℤ) (h0 : 0 ≤ n) (h1 : n ≤ 999) : (fmtd 3 n).length = 3 := by
  unfold fmtd
  rw [if_neg (by omega)]
  exact zfill_length 3 _ (repr_len_le_three n.natAbs (by omega))

/-!
Claim C1 and claim C6.
-/

/-- C1: `format_timestamp` truncates, never rounds: `format_timestamp 0 =
"00:00:00,000"`, `format_timestamp 3661.5 = "01:01:01,500"`,
`format_timestamp 1.9995 = "00:00:01,999"` (not rounded up), and for every
non-negative input the hour, minute, second and millisecond fields are the
floor of the exact decomposition `⌊q/3600⌋`, `⌊q/60⌋ mod 60`, `⌊q⌋ mod 60`,
`⌊1000 q⌋ mod 1000`. -/
theorem format_timestamp_truncation :
    format_timestamp 0 = "00:00:00,000" ∧
    format_timestamp (3661.5 : ℚ) = "01:01:01,500" ∧
    format_timestamp (1.9995 : ℚ) = "00:00:01,999" ∧
    ∀ q : ℚ, 0 ≤ q →
      format_timestamp q =
        fmtd 2 ⌊q / 3600⌋ ++ ":" ++ fmtd 2 (⌊q / 60⌋ % 60) ++ ":" ++
        fmtd 2 (⌊q⌋ % 60) ++ "," ++ fmtd 3 (⌊q * 1000⌋ % 1000) := by
  refine ⟨?_, ?_, ?_, fun q _ => fmt_decomp q⟩ <;>
    (simp only [format_timestamp, pymod]; norm_num; decide)

/-- Witness for C1: the general decomposition applied at the concrete input
`1.9995`. -/
theorem format_timestamp_truncation_witness :
    (0 : ℚ) ≤ 1.9995 ∧
    format_timestamp (1.9995 : ℚ) =
      fmtd 2 ⌊(1.9995 : ℚ) / 3600⌋ ++ ":" ++ fmtd 2 (⌊(1.9995 : ℚ) / 60⌋ % 60) ++ ":" ++
      fmtd 2 (⌊(1.9995 : ℚ)⌋ % 60) ++ "," ++ fmtd 3 (⌊(1.9995 : ℚ) * 1000⌋ % 1000) :=
  ⟨by norm_num, format_timestamp_truncation.2.2.2 (1.9995 : ℚ) (by norm_num)⟩

/-- C6: for every non-negative input, the minute, second and millisecond
fields lie in their declared ranges (0-59, 0-59, 0-999) and format as exactly
two, two and three zero-padded digits, while the hours field is unbounded:
100 hours formats as the three-digit `100` and is not rejected. -/
theorem format_timestamp_field_ranges :
    (∀ q : ℚ, 0 ≤ q →
      0 ≤ ⌊q / 60⌋ % 60 ∧ ⌊q / 60⌋ % 60 ≤ 59 ∧
      0 ≤ ⌊q⌋ % 60 ∧ ⌊q⌋ % 60 ≤ 59 ∧
      0 ≤ ⌊q * 1000⌋ % 1000 ∧ ⌊q * 1000⌋ % 1000 ≤ 999 ∧
      format_timestamp q =
        fmtd 2 ⌊q / 3600⌋ ++ ":" ++ fmtd 2 (⌊q / 60⌋ % 60) ++ ":" ++
        fmtd 2 (⌊q⌋ % 60) ++ "," ++ fmtd 3 (⌊q * 1000⌋ % 1000) ∧
      (fmtd 2 (⌊q / 60⌋ % 60)).length = 2 ∧
      (fmtd 2 (⌊q⌋ % 60)).length = 2 ∧
      (fmtd 3 (⌊q * 1000⌋ % 1000)).length = 3) ∧
    format_timestamp 360000 = "100:00:00,000" ∧
    (fmtd 2 ⌊(360000 : ℚ) / 3600⌋).length = 3 := by
  refine ⟨fun q hq => ?_, ?_, ?_⟩
  · have hm0 : 0 ≤ ⌊q / 60⌋ % 60 := Int.emod_nonneg _ (by norm_num)
    have hm1 : ⌊q / 60⌋ % 60 < 60 := Int.emod_lt_of_pos _ (by norm_num)
    have hs0 : 0 ≤ ⌊q⌋ % 60 := Int.emod_nonneg _ (by norm_num)
    have hs1 : ⌊q⌋ % 60 < 60 := Int.emod_lt_of_pos _ (by norm_num)
    have hx0 : 0 ≤ ⌊q * 1000⌋ % 1000 := Int.emod_nonneg _ (by norm_num)
    have hx1 : ⌊q * 1000⌋ % 1000 < 1000 := Int.emod_lt_of_pos _ (by norm_num)
    exact ⟨hm0, by omega, hs0, by omega, hx0, by omega, fmt_decomp q,
      fmtd_length_two _ hm0 (by omega), fmtd_length_two _ hs0 (by omega),
      fmtd_length_three _ hx0 (by omega)⟩
  · simp only [format_timestamp, pymod]; norm_num; decide
  · norm_num; decide

/-- Witness for C6: the field-range statement applied at the concrete input
`3661.5`. -/
theorem format_timestamp_field_ranges_witness :
    (0 : ℚ) ≤ 3661.5 ∧
    (0 ≤ ⌊(3661.5 : ℚ) / 60⌋ % 60 ∧ ⌊(3661.5 : ℚ) / 60⌋ % 60 ≤ 59 ∧
      0 ≤ ⌊(3661.5 : ℚ)⌋ % 60 ∧ ⌊(3661.5 : ℚ)⌋ % 60 ≤ 59 ∧
      0 ≤ ⌊(3661.5 : ℚ) * 1000⌋ % 1000 ∧ ⌊(3661.5 : ℚ) * 1000⌋ % 1000 ≤ 999 ∧
      format_timestamp (3661.5 : ℚ) =
        fmtd 2 ⌊(3661.5 : ℚ) / 3600⌋ ++ ":" ++ fmtd 2 (⌊(3661.5 : ℚ) / 60⌋ % 60) ++ ":" ++
        fmtd 2 (⌊(3661.5 : ℚ)⌋ % 60) ++ "," ++ fmtd 3 (⌊(3661.5 : ℚ) * 1000⌋ % 1000) ∧
      (fmtd 2 (⌊(3661.5 : ℚ) / 60⌋ % 60)).length = 2 ∧
      (fmtd 2 (⌊(3661.5 : ℚ)⌋ % 60)).length = 2 ∧
      (fmtd 3 (⌊(3661.5 : ℚ) * 1000⌋ % 1000)).length = 3) :=
  ⟨by norm_num, format_timestamp_field_ranges.1 (3661.5 : ℚ) (by norm_num)⟩

/-!
Claim C5 and claim C7.
-/

/-- A segment with empty text, as the transcription engine may emit. -/
def segEmptyText : Segment := { start := 0, «end» := 1, text := "" }

theorem save_srt_from_length (i : Nat) (l : List Segment) :
    (save_srt_from i l).length = l.length := by
  induction l generalizing i with
  | nil => rfl
  | cons a t ih => simp [save_srt_from, ih]

theorem save_srt_from_getElem (i : Nat) (l : List Segment) (j : Nat) (h : j < l.length) :
    (save_srt_from i l)[j]? = some (srt_block (i + j) l[j]) := by
  induction l generalizing i j with
  | nil => simp at h
  | cons a t ih =>
    cases j with
    | zero => simp [save_srt_from]
    | succ k =>
      have hk : k < t.length := by simpa using h
      simp only [save_srt_from, List.getElem?_cons_succ]
      rw [ih (i + 1) k hk]
      have e : i + 1 + k = i + (k + 1) := by omega
      rw [e]
      simp

/-- C5: `save_srt` writes one block per segment, in input order, with
contiguous 1-based indices: block `i` is the index line `i+1`, the timing line
with the formatted start and end, the trimmed text line, and a blank separator
line; the number of blocks equals the number of segments even when a segment
has empty text. -/
theorem save_srt_block_structure (segments : List Segment) :
    (save_srt segments).length = segments.length ∧
    ∀ i (h : i < segments.length),
      (save_srt segments)[i]? =
        some (Nat.repr (i + 1) ++ "\n" ++
          format_timestamp segments[i].start ++ " --> " ++
          format_timestamp segments[i].«end» ++ "\n" ++
          pystrip segments[i].text ++ "\n\n") := by
  refine ⟨save_srt_from_length 1 segments, fun i h => ?_⟩
  rw [save_srt, save_srt_from_getElem 1 segments i h]
  have e : 1 + i = i + 1 := by omega
  rw [e]
  rfl

/-- Witness for C5 at a single empty-text segment: it still yields a block,
numbered 1. -/
theorem save_srt_block_structure_witness :
    0 < ([segEmptyText] : List Segment).length ∧
    (save_srt [segEmptyText])[0]? =
      some (Nat.repr (0 + 1) ++ "\n" ++
        format_timestamp (([segEmptyText] : List Segment)[0]).start ++ " --> " ++
        format_timestamp (([segEmptyText] : List Segment)[0]).«end» ++ "\n" ++
        pystrip (([segEmptyText] : List Segment)[0]).text ++ "\n\n") :=
  ⟨by decide, (save_srt_block_structure [segEmptyText]).2 0 (by decide)⟩

/-- Tail form of space joining: each element is preceded by one space. -/
def sepTail : List String → String
  | [] => ""
  | s :: rest => " " ++ s ++ sepTail rest

theorem intercalate_go_sepTail (acc : String) (as : List String) :
    String.intercalate.go acc " " as = acc ++ sepTail as := by
  induction as generalizing acc with
  | nil => simp [String.intercalate.go, sepTail]
  | cons b bs ih => simp [String.intercalate.go, sepTail, ih, String.append_assoc]

theorem spaceJoin_cons (a : String) (as : List String) :
    spaceJoin (a :: as) = a ++ sepTail as := by
  induction as generalizing a with
  | nil => simp [spaceJoin, sepTail]
  | cons b bs ih => simp [spaceJoin, sepTail, ih, String.append_assoc]

/-- C7: `save_transcript` writes exactly the trimmed text of every segment,
in order, joined by single spaces, as one undivided string. -/
theorem save_transcript_space_joined (segments : List Segment) :
    save_transcript segments = spaceJoin (segments.map (fun seg => pystrip seg.text)) := by
  unfold save_transcript
  cases hm : segments.map (fun seg => pystrip seg.text) with
  | nil => rfl
  | cons a as =>
    rw [spaceJoin_cons]
    show String.intercalate.go a " " as = a ++ sepTail as
    exact intercalate_go_sepTail a as

/-!
Claims C2, C3, C4 and C10 about the grammar-correction stage.
-/

/-- A sample input segment. -/
def segHello : Segment := { start := 0, «end» := 1, text := "hello" }

/-- The segment produced for `segHello` by a tool appending an exclamation
mark. -/
def segHelloBang : Segment := { start := 0, «end» := 1, text := "hello!" }

/-- A tool whose correction call always raises. -/
def boomTool : LTool := ⟨fun _ => Except.error "boom"⟩

/-- A tool whose correction call appends an exclamation mark. -/
def bangTool : LTool := ⟨fun s => Except.ok (s ++ "!")⟩

theorem correct_loop_ok_spec (tool : LTool) :
    ∀ (l out : List Segment), correct_loop tool l = Except.ok out →
      out.length = l.length ∧
      ∀ i (hi : i < l.length) (ho : i < out.length),
        out[i].start = l[i].start ∧ out[i].«end» = l[i].«end» ∧ out[i].extra = [] := by
  intro l
  induction l with
  | nil =>
    intro out h
    simp only [correct_loop, Except.ok.injEq] at h
    subst h
    exact ⟨rfl, fun i hi ho => by simp at hi⟩
  | cons a t ih =>
    intro out h
    cases hc : tool.correct (pystrip a.text) with
    | error e => simp [correct_loop, hc] at h
    | ok fixed =>
      cases hr : correct_loop tool t with
      | error e => simp [correct_loop, hc, hr] at h
      | ok tail =>
        simp only [correct_loop, hc, hr, Except.ok.injEq] at h
        subst h
        obtain ⟨hlen, hget⟩ := ih tail hr
        refine ⟨by simp [hlen], ?_⟩
        intro i hi ho
        cases i with
        | zero => exact ⟨rfl, rfl, rfl⟩
        | succ k =>
          have hk : k < t.length := by simpa using hi
          have hk2 : k < tail.length := by simpa using ho
          simpa using hget k hk hk2

/-- C3: whenever `correct_grammar` returns normally, the output has the same
length as the input, in the same order, and each output segment keeps the
corresponding input segment's `start` and `end`. -/
theorem correct_grammar_preserves_timing (ltm : LTModule) (segments : List Segment)
    (lang_code : String) (out : List Segment)
    (h : correct_grammar ltm segments lang_code = Except.ok out) :
    out.length = segments.length ∧
    ∀ i (hi : i < segments.length) (ho : i < out.length),
      out[i].start = segments[i].start ∧ out[i].«end» = segments[i].«end» := by
  cases ltm with
  | absent =>
    simp only [correct_grammar, Except.ok.injEq] at h
    subst h
    exact ⟨rfl, fun i hi ho => ⟨rfl, rfl⟩⟩
  | present construct =>
    cases hc : construct (langMapGet lang_code) with
    | error e =>
      simp only [correct_grammar, hc, Except.ok.injEq] at h
      subst h
      exact ⟨rfl, fun i hi ho => ⟨rfl, rfl⟩⟩
    | ok tool =>
      simp only [correct_grammar, hc] at h
      obtain ⟨hlen, hget⟩ := correct_loop_ok_spec tool segments out h
      exact ⟨hlen, fun i hi ho => ⟨(hget i hi ho).1, (hget i hi ho).2.1⟩⟩

/-- Witness for C3: a run through an available tool on one segment keeps the
timing `0 --> 1`. -/
theorem correct_grammar_preserves_timing_witness :
    ([segHelloBang] : List Segment).length = ([segHello] : List Segment).length ∧
    ∀ i (hi : i < ([segHello] : List Segment).length)
      (ho : i < ([segHelloBang] : List Segment).length),
      ([segHelloBang] : List Segment)[i].start = ([segHello] : List Segment)[i].start ∧
      ([segHelloBang] : List Segment)[i].«end» = ([segHello] : List Segment)[i].«end» :=
  correct_grammar_preserves_timing (LTModule.present (fun _ => Except.ok bangTool))
    [segHello] "en" [segHelloBang] (by rfl)

/-- Counterexample to C2 as stated: the module imports and the constructor
succeeds, but the tool throws on the single segment; `correct_grammar` then
evaluates to the raised error, not to the original sequence. -/
theorem correct_grammar_throw_cex :
    correct_grammar (LTModule.present (fun _ => Except.ok boomTool)) [segHello] "en"
        = Except.error "boom" ∧
    correct_grammar (LTModule.present (fun _ => Except.ok boomTool)) [segHello] "en"
        ≠ Except.ok [segHello] := by
  refine ⟨rfl, fun hcontra => ?_⟩
  have h1 : (Except.error "boom" : Except String (List Segment)) = Except.ok [segHello] :=
    hcontra
  exact absurd h1 (by simp)

theorem correct_loop_error_of_segment (tool : LTool) :
    ∀ (l : List Segment) (i : Nat) (hi : i < l.length) (e : String),
      tool.correct (pystrip l[i].text) = Except.error e →
      ∃ msg, correct_loop tool l = Except.error msg := by
  intro l
  induction l with
  | nil => intro i hi e he; simp at hi
  | cons a t ih =>
    intro i hi e he
    cases hc : tool.correct (pystrip a.text) with
    | error e2 => exact ⟨e2, by simp [correct_loop, hc]⟩
    | ok fixed =>
      cases i with
      | zero =>
        have hcontra := hc.symm.trans he
        simp at hcontra
      | succ k =>
        have hk : k < t.length := by simpa using hi
        have he' : tool.correct (pystrip t[k].text) = Except.error e := by simpa using he
        obtain ⟨msg, hmsg⟩ := ih k hk e he'
        exact ⟨msg, by simp [correct_loop, hc, hmsg]⟩

/-- C2 amended: if the grammar service throws while correcting a specific
segment after successful construction, `correct_grammar` does not catch the
error and never returns a partial per-segment result: the exception
propagates out of the correction stage (so the stage, and with it the
pipeline, aborts) instead of the original sequence being returned. -/
theorem correct_grammar_throw_propagates (construct : String → Except String LTool)
    (tool : LTool) (segments : List Segment) (lang_code : String)
    (hc : construct (langMapGet lang_code) = Except.ok tool)
    (i : Nat) (hi : i < segments.length) (e : String)
    (he : tool.correct (pystrip segments[i].text) = Except.error e) :
    (∃ msg, correct_grammar (LTModule.present construct) segments lang_code
        = Except.error msg) ∧
    ∀ out, correct_grammar (LTModule.present construct) segments lang_code
        ≠ Except.ok out := by
  obtain ⟨msg, hmsg⟩ := correct_loop_error_of_segment tool segments i hi e he
  have hcg : correct_grammar (LTModule.present construct) segments lang_code
      = Except.error msg := by
    simp [correct_grammar, hc, hmsg]
  exact ⟨⟨msg, hcg⟩, fun out hout => by rw [hcg] at hout; simp at hout⟩

/-- Witness for the amended C2 at a concrete throwing tool and one segment. -/
theorem correct_grammar_throw_propagates_witness :
    (∃ msg, correct_grammar (LTModule.present (fun _ => Except.ok boomTool)) [segHello] "en"
        = Except.error msg) ∧
    ∀ out, correct_grammar (LTModule.present (fun _ => Except.ok boomTool)) [segHello] "en"
        ≠ Except.ok out :=
  correct_grammar_throw_propagates (fun _ => Except.ok boomTool) boomTool [segHello] "en"
    rfl 0 (by decide) "boom" rfl

/-- C4: when the module is missing, or its constructor raises, the correction
stage returns the input sequence itself, and a run whose other stages succeed
still completes: the pipeline produces the subtitle blocks, the transcript and
the video, and reports no error. -/
theorem correct_grammar_unavailable_passthrough (env : PipelineEnv) (lang : String)
    (segments : List Segment)
    (hun : env.grammar = LTModule.absent ∨
      ∃ construct e, env.grammar = LTModule.present construct ∧
        construct (langMapGet lang) = Except.error e) :
    correct_grammar env.grammar segments lang = Except.ok segments ∧
    (env.extract = Except.ok () → env.transcribe = Except.ok (lang, segments) →
      env.srt_write = Except.ok () → env.txt_write = Except.ok () →
      env.mux = Except.ok () →
      run_pipeline env =
        (⟨false, some (save_srt segments), some (save_transcript segments), true⟩, none)) := by
  have hcg : correct_grammar env.grammar segments lang = Except.ok segments := by
    rcases hun with h | ⟨construct, e, hg, hce⟩
    · rw [h]; rfl
    · rw [hg]; simp [correct_grammar, hce]
  refine ⟨hcg, fun he ht hs hw hm => ?_⟩
  have hif : (if env.has_grammar && !env.no_grammar
      then correct_grammar env.grammar segments lang
      else Except.ok segments) = Except.ok segments := by
    split
    · exact hcg
    · rfl
  simp only [run_pipeline, he, ht, hif, hs, hw, hm]

/-- A pipeline environment with the grammar module absent and every other
stage succeeding. -/
def envAbsentOK : PipelineEnv :=
  { extract := Except.ok (), transcribe := Except.ok ("en", [segHello]),
    grammar := LTModule.absent, has_grammar := true, no_grammar := false,
    srt_write := Except.ok (), txt_write := Except.ok (), mux := Except.ok () }

/-- Witness for C4: the degraded run at a concrete environment passes the
segments through and produces all artifacts. -/
theorem correct_grammar_unavailable_passthrough_witness :
    correct_grammar envAbsentOK.grammar [segHello] "en" = Except.ok [segHello] ∧
    run_pipeline envAbsentOK =
      (⟨false, some (save_srt [segHello]), some (save_transcript [segHello]), true⟩, none) :=
  ⟨(correct_grammar_unavailable_passthrough envAbsentOK "en" [segHello] (Or.inl rfl)).1,
   (correct_grammar_unavailable_passthrough envAbsentOK "en" [segHello] (Or.inl rfl)).2
     rfl rfl rfl rfl rfl⟩

/-- C10: on a successful run through an available tool, every output segment
carries exactly the fields `start`, `end`, `text` (its `extra` fields are
dropped), while the unavailable path returns the input sequence itself, all
fields included. -/
theorem correct_grammar_field_frame (construct : String → Except String LTool)
    (tool : LTool) (segments : List Segment) (lang_code : String)
    (hc : construct (langMapGet lang_code) = Except.ok tool)
    (out : List Segment)
    (h : correct_grammar (LTModule.present construct) segments lang_code = Except.ok out) :
    (∀ seg ∈ out, seg.extra = []) ∧
    correct_grammar LTModule.absent segments lang_code = Except.ok segments := by
  refine ⟨?_, rfl⟩
  simp only [correct_grammar, hc] at h
  obtain ⟨hlen, hget⟩ := correct_loop_ok_spec tool segments out h
  intro seg hseg
  obtain ⟨i, hi, rfl⟩ := List.getElem_of_mem hseg
  exact (hget i (by omega) hi).2.2

/-- Witness for C10 at a concrete tool run on one segment with an extra
field. -/
theorem correct_grammar_field_frame_witness :
    (∀ seg ∈ ([segHelloBang] : List Segment), seg.extra = []) ∧
    correct_grammar LTModule.absent [segHello] "en" = Except.ok [segHello] :=
  correct_grammar_field_frame (fun _ => Except.ok bangTool) bangTool [segHello] "en" rfl
    [segHelloBang] (by rfl)

/-!
Claim C8: the intermediate audio file is removed only at the very end.
-/

/-- C8: the pipeline deletes the intermediate audio file only after every
later stage has succeeded: a successful run ends with the audio file gone and
all three artifacts present, while a run in which extraction succeeded but any
later stage raised ends with the audio file still on disk. -/
theorem audio_cleanup_order (env : PipelineEnv) :
    ((run_pipeline env).2 = none →
      (run_pipeline env).1.audio = false ∧ (run_pipeline env).1.video = true ∧
      (run_pipeline env).1.srt ≠ none ∧ (run_pipeline env).1.txt ≠ none) ∧
    (env.extract = Except.ok () → (run_pipeline env).2 ≠ none →
      (run_pipeline env).1.audio = true) := by
  rcases env with ⟨he, ht, hg, hhg, hng, hs, hw, hm⟩
  rcases he with e | ⟨⟩
  · refine ⟨fun hnone => ?_, fun hex _ => ?_⟩
    · simp [run_pipeline] at hnone
    · simp at hex
  rcases ht with e | ⟨lang, segs0⟩
  · exact ⟨fun hnone => by simp [run_pipeline] at hnone, fun _ _ => by simp [run_pipeline]⟩
  rcases hcg : correct_grammar hg segs0 lang with e | segs <;>
    cases hhg <;> cases hng <;>
    rcases hs with e1 | ⟨⟩ <;> rcases hw with e2 | ⟨⟩ <;> rcases hm with e3 | ⟨⟩ <;>
    refine ⟨fun hnone => ?_, fun hex hne => ?_⟩ <;>
    simp_all [run_pipeline]

/-- A pipeline environment in which every stage up to muxing succeeds and the
muxing invocation raises. -/
def envFailMux : PipelineEnv :=
  { extract := Except.ok (), transcribe := Except.ok ("en", [segHello]),
    grammar := LTModule.absent, has_grammar := false, no_grammar := false,
    srt_write := Except.ok (), txt_write := Except.ok (),
    mux := Except.error "ffmpeg failed" }

/-- Witness for C8: when muxing fails, the intermediate audio file is left in
place. -/
theorem audio_cleanup_order_witness : (run_pipeline envFailMux).1.audio = true :=
  (audio_cleanup_order envFailMux).2 rfl (by decide)

/-!
Claim C9: escaping of the subtitle path in the burn-in filter argument.
-/

/-- Per-character expansion performed by the two chained `replace` calls. -/
def eChar (c : Char) : List Char :=
  if c = ':' then [backslash, ':']
  else if c = squote then [backslash, squote]
  else [c]

theorem py_replace1_append (x y : List Char) (pat : Char) (rep : List Char) :
    py_replace1 (x ++ y) pat rep = py_replace1 x pat rep ++ py_replace1 y pat rep := by
  simp [py_replace1]

theorem escape_path_flatMap (p : List Char) : escape_path p = p.flatMap eChar := by
  induction p with
  | nil => rfl
  | cons c rest ih =>
    have step : escape_path (c :: rest)
        = py_replace1 (if c = ':' then [backslash, ':'] else [c]) squote
            [backslash, squote] ++ escape_path rest := by
      show py_replace1 (py_replace1 (c :: rest) ':' [backslash, ':']) squote
          [backslash, squote] = _
      have h1 : py_replace1 (c :: rest) ':' [backslash, ':']
          = (if c = ':' then [backslash, ':'] else [c])
            ++ py_replace1 rest ':' [backslash, ':'] := by
        simp [py_replace1]
      rw [h1, py_replace1_append]
      rfl
    rw [step, ih, List.flatMap_cons]
    congr 1
    by_cases h1 : c = ':'
    · subst h1; rfl
    · by_cases h2 : c = squote
      · subst h2; rfl
      · simp [py_replace1, eChar, h1, h2]

theorem escape_invariant (p : List Char) :
    properlyEscaped (p.flatMap eChar) = true ∧
    ∀ prev, pairsOK prev (p.flatMap eChar) = true := by
  induction p with
  | nil => exact ⟨rfl, fun prev => rfl⟩
  | cons c rest ih =>
    obtain ⟨ihP, ihA⟩ := ih
    rw [List.flatMap_cons]
    by_cases h1 : c = ':'
    · subst h1
      refine ⟨?_, fun prev => ?_⟩
      · show properlyEscaped (backslash :: ':' :: rest.flatMap eChar) = true
        simp [properlyEscaped, pairsOK, isSpecial, backslash, squote, ihA]
      · show pairsOK prev (backslash :: ':' :: rest.flatMap eChar) = true
        simp [pairsOK, isSpecial, backslash, squote, ihA]
    · by_cases h2 : c = squote
      · subst h2
        refine ⟨?_, fun prev => ?_⟩
        · show properlyEscaped (backslash :: squote :: rest.flatMap eChar) = true
          simp [properlyEscaped, pairsOK, isSpecial, backslash, squote, ihA]
        · show pairsOK prev (backslash :: squote :: rest.flatMap eChar) = true
          simp [pairsOK, isSpecial, backslash, squote, ihA]
      · have hch : eChar c = [c] := by simp [eChar, h1, h2]
        rw [hch]
        have hsp : isSpecial c = false := by
          simp [isSpecial]
          exact ⟨h1, h2⟩
        refine ⟨?_, fun prev => ?_⟩
        · show properlyEscaped (c :: rest.flatMap eChar) = true
          simp [properlyEscaped, hsp, ihA]
        · show pairsOK prev (c :: rest.flatMap eChar) = true
          simp [pairsOK, hsp, ihA]

/-- C9: in the burn-in invocation, every colon and every single quote of the
subtitle path is preceded by a backslash inside the escaped path that the
filter argument embeds, for every possible path; and the filter argument of
the command is exactly `subtitles='<escaped path>'`. -/
theorem burn_filter_path_escaped (video_path srt_path output_path : List Char) :
    properlyEscaped (escape_path srt_path) = true ∧
    burn_subtitles_cmd video_path srt_path output_path =
      ["ffmpeg".toList, "-y".toList, "-i".toList, video_path,
       "-vf".toList,
       "subtitles=".toList ++ [squote] ++ escape_path srt_path ++ [squote],
       "-c:a".toList, "copy".toList, output_path] := by
  refine ⟨?_, rfl⟩
  rw [escape_path_flatMap]
  exact (escape_invariant srt_path).1

end VideoCaptioner
